import Mathlib

/-!
Shallow embedding of the ImageFilter repository core
(src/tester.cpp, src/filters.cpp, src/psnr.cpp, src/ssim.cpp).

Conventions of the embedding:
* C++ `double` arithmetic is modelled by exact real arithmetic (`ℝ`);
  the spec states the results "within floating-point tolerance".
* 8-bit samples (`unsigned char`) are modelled as `ℕ`; well-formed
  buffers carry the bound `≤ 255` as a hypothesis.
* `static_cast<unsigned char>` of a nonnegative in-range double
  truncates toward zero; it is modelled by `duchar` (integer floor,
  then `Int.toNat`).  All casts in the sources are applied to values
  that are provably in `[0, 255]`.
* A C++ `for` loop accumulating into a running sum is modelled by
  `loopSum` (a `List.foldl` over `List.range`, mirroring the loop
  order); nested loops by `loopSum2`.
* Pixel grids are modelled as functions from coordinates; output
  images are written only at in-range coordinates, out-of-range
  coordinates hold the zero-initialised value, as in the sources
  (`Image(w, h)` value-initialises, `cv::Mat::zeros`).
-/

/-- A single accumulation loop `for (i = 0; i < n; i++) acc += f i;`
starting from `0.0`, in source order. -/
def loopSum (n : ℕ) (f : ℕ → ℝ) : ℝ :=
  (List.range n).foldl (fun acc i => acc + f i) 0

/-- Two nested accumulation loops over the same bound, outer index first. -/
def loopSum2 (n : ℕ) (f : ℕ → ℕ → ℝ) : ℝ :=
  loopSum n (fun j => loopSum n (fun i => f j i))

/-- `std::max(0, std::min(v, hi - 1))`: boundary clamping of a signed
coordinate into `[0, hi)`, returned as a natural index. -/
def clampIdx (v : ℤ) (hi : ℕ) : ℕ :=
  (max 0 (min v ((hi : ℤ) - 1))).toNat

/-- `static_cast<unsigned char>` of a nonnegative double: truncation
toward zero. -/
noncomputable def duchar (x : ℝ) : ℕ :=
  (⌊x⌋).toNat

/-- `struct RGB { unsigned char r, g, b; }` (src/tester.cpp). -/
structure RGB where
  r : ℕ
  g : ℕ
  b : ℕ
deriving DecidableEq

/-- Channel accessor used to state per-channel facts uniformly. -/
def RGB.chan (p : RGB) (c : Fin 3) : ℕ :=
  match c with
  | 0 => p.r
  | 1 => p.g
  | 2 => p.b

/-- `class Image` (src/tester.cpp): a `width × height` grid of RGB
pixels; `pix x y` models `pixels[y * width + x]` through `at(x, y)`. -/
structure Image where
  width : ℕ
  height : ℕ
  pix : ℕ → ℕ → RGB

/-- All stored samples of an image are valid 8-bit values. -/
def Image.wf (img : Image) : Prop :=
  ∀ x < img.width, ∀ y < img.height, ∀ c : Fin 3, (img.pix x y).chan c ≤ 255

/-- `spatialWeight` (src/tester.cpp line 41):
`exp(-(dx*dx + dy*dy) / (2.0 * sigmaSpatial * sigmaSpatial))`. -/
noncomputable def spatialWeight (dx dy : ℤ) (sigmaSpatial : ℝ) : ℝ :=
  Real.exp (-((dx * dx + dy * dy : ℤ) : ℝ) / (2 * sigmaSpatial * sigmaSpatial))

/-- `rangeWeight` (src/tester.cpp line 46):
`exp(-(diff * diff) / (2.0 * sigmaRange * sigmaRange))`. -/
noncomputable def rangeWeight (diff : ℤ) (sigmaRange : ℝ) : ℝ :=
  Real.exp (-((diff * diff : ℤ) : ℝ) / (2 * sigmaRange * sigmaRange))

/-- `colorDifference` (src/tester.cpp line 51): sum of squared
per-channel differences of two pixels. -/
def colorDifference (p1 p2 : RGB) : ℤ :=
  ((p1.r : ℤ) - p2.r) * ((p1.r : ℤ) - p2.r) +
    ((p1.g : ℤ) - p2.g) * ((p1.g : ℤ) - p2.g) +
    ((p1.b : ℤ) - p2.b) * ((p1.b : ℤ) - p2.b)

/-- Combined bilateral weight of the neighbourhood entry with loop
indices `(j, i)` (offsets `ky = j - offset`, `kx = i - offset`) for the
output pixel `(x, y)`: `spatialW * rangeW` as in src/tester.cpp
lines 85-92, with the neighbour read at boundary-clamped coordinates. -/
noncomputable def bilatWeight (input : Image) (offset : ℕ) (sigmaSpatial sigmaRange : ℝ)
    (x y j i : ℕ) : ℝ :=
  spatialWeight ((i : ℤ) - offset) ((j : ℤ) - offset) sigmaSpatial *
    rangeWeight
      (colorDifference (input.pix x y)
        (input.pix (clampIdx ((x : ℤ) + ((i : ℤ) - offset)) input.width)
          (clampIdx ((y : ℤ) + ((j : ℤ) - offset)) input.height)))
      sigmaRange

/-- The neighbour sample read in the bilateral loop body, per channel. -/
def bilatNeighbor (input : Image) (offset : ℕ) (x y j i : ℕ) (c : Fin 3) : ℕ :=
  (input.pix (clampIdx ((x : ℤ) + ((i : ℤ) - offset)) input.width)
      (clampIdx ((y : ℤ) + ((j : ℤ) - offset)) input.height)).chan c

/-- `applyBilateralFilter` (src/tester.cpp lines 61-110).  For every
output pixel, the `ky`/`kx` loops accumulate `sumR/sumG/sumB` and
`sumWeight` over the `(2*(kernelSize/2)+1)²` clamped neighbourhood;
the store divides by `sumWeight` and casts to `unsigned char`. -/
noncomputable def applyBilateralFilter (input : Image) (kernelSize : ℕ)
    (sigmaSpatial sigmaRange : ℝ) : Image :=
  { width := input.width
    height := input.height
    pix := fun x y =>
      if x < input.width ∧ y < input.height then
        { r := duchar
            (loopSum2 (2 * (kernelSize / 2) + 1)
                (fun j i => (bilatNeighbor input (kernelSize / 2) x y j i 0 : ℝ) *
                  bilatWeight input (kernelSize / 2) sigmaSpatial sigmaRange x y j i) /
              loopSum2 (2 * (kernelSize / 2) + 1)
                (fun j i => bilatWeight input (kernelSize / 2) sigmaSpatial sigmaRange x y j i))
          g := duchar
            (loopSum2 (2 * (kernelSize / 2) + 1)
                (fun j i => (bilatNeighbor input (kernelSize / 2) x y j i 1 : ℝ) *
                  bilatWeight input (kernelSize / 2) sigmaSpatial sigmaRange x y j i) /
              loopSum2 (2 * (kernelSize / 2) + 1)
                (fun j i => bilatWeight input (kernelSize / 2) sigmaSpatial sigmaRange x y j i))
          b := duchar
            (loopSum2 (2 * (kernelSize / 2) + 1)
                (fun j i => (bilatNeighbor input (kernelSize / 2) x y j i 2 : ℝ) *
                  bilatWeight input (kernelSize / 2) sigmaSpatial sigmaRange x y j i) /
              loopSum2 (2 * (kernelSize / 2) + 1)
                (fun j i => bilatWeight input (kernelSize / 2) sigmaSpatial sigmaRange x y j i)) }
      else { r := 0, g := 0, b := 0 } }

/-- `applyBilateralFilterFast` (src/tester.cpp lines 113-116): delegate
with the kernel size capped at 9. -/
noncomputable def applyBilateralFilterFast (input : Image) (kernelSize : ℕ)
    (sigmaSpatial sigmaRange : ℝ) : Image :=
  applyBilateralFilter input (min kernelSize 9) sigmaSpatial sigmaRange

/-- Unnormalised Gaussian kernel entry `exp(-(x*x)/(2σ²))` at index `i`
of a `kernelSize`-tap kernel, `x = i - kernelSize/2`
(src/tester.cpp lines 128-132). -/
noncomputable def gaussEntry (kernelSize : ℕ) (sigma : ℝ) (i : ℕ) : ℝ :=
  Real.exp (-((((i : ℤ) - (kernelSize / 2 : ℕ)) * ((i : ℤ) - (kernelSize / 2 : ℕ)) : ℤ) : ℝ) /
    (2 * sigma * sigma))

/-- Normalised kernel entry `kernel1D[i]` after the division by `sum`
(src/tester.cpp lines 133-135). -/
noncomputable def gaussKernel1D (kernelSize : ℕ) (sigma : ℝ) (i : ℕ) : ℝ :=
  gaussEntry kernelSize sigma i / loopSum kernelSize (fun j => gaussEntry kernelSize sigma j)

/-- Horizontal pass of `applyGaussianBlur` (src/tester.cpp lines 137-161):
per channel, `sum += input(clamp(x + k - offset), y) * kernel1D[k]`,
then the `unsigned char` store. -/
noncomputable def gaussHorizontal (input : Image) (kernelSize : ℕ) (sigma : ℝ) : Image :=
  { width := input.width
    height := input.height
    pix := fun x y =>
      if x < input.width ∧ y < input.height then
        { r := duchar (loopSum kernelSize (fun k =>
            ((input.pix (clampIdx ((x : ℤ) + k - (kernelSize / 2 : ℕ)) input.width) y).r : ℝ) *
              gaussKernel1D kernelSize sigma k))
          g := duchar (loopSum kernelSize (fun k =>
            ((input.pix (clampIdx ((x : ℤ) + k - (kernelSize / 2 : ℕ)) input.width) y).g : ℝ) *
              gaussKernel1D kernelSize sigma k))
          b := duchar (loopSum kernelSize (fun k =>
            ((input.pix (clampIdx ((x : ℤ) + k - (kernelSize / 2 : ℕ)) input.width) y).b : ℝ) *
              gaussKernel1D kernelSize sigma k)) }
      else { r := 0, g := 0, b := 0 } }

/-- Vertical pass of `applyGaussianBlur` (src/tester.cpp lines 163-185). -/
noncomputable def gaussVertical (temp : Image) (kernelSize : ℕ) (sigma : ℝ) : Image :=
  { width := temp.width
    height := temp.height
    pix := fun x y =>
      if x < temp.width ∧ y < temp.height then
        { r := duchar (loopSum kernelSize (fun k =>
            ((temp.pix x (clampIdx ((y : ℤ) + k - (kernelSize / 2 : ℕ)) temp.height)).r : ℝ) *
              gaussKernel1D kernelSize sigma k))
          g := duchar (loopSum kernelSize (fun k =>
            ((temp.pix x (clampIdx ((y : ℤ) + k - (kernelSize / 2 : ℕ)) temp.height)).g : ℝ) *
              gaussKernel1D kernelSize sigma k))
          b := duchar (loopSum kernelSize (fun k =>
            ((temp.pix x (clampIdx ((y : ℤ) + k - (kernelSize / 2 : ℕ)) temp.height)).b : ℝ) *
              gaussKernel1D kernelSize sigma k)) }
      else { r := 0, g := 0, b := 0 } }

/-- `applyGaussianBlur` (src/tester.cpp lines 119-188): build the
normalised 1-D kernel, horizontal pass into `temp`, vertical pass into
`output`.  The function performs no parameter validation. -/
noncomputable def applyGaussianBlur (input : Image) (kernelSize : ℕ) (sigma : ℝ) : Image :=
  gaussVertical (gaussHorizontal input kernelSize sigma) kernelSize sigma

/-- The sharpen kernel after the "scale by amount" loop
(src/tester.cpp lines 195-209): the centre entry is `1 + 4*amount`,
and the loop overwrites every other entry — corners included — with
`-amount`. -/
def sharpenKernel (amount : ℝ) (ky kx : ℕ) : ℝ :=
  if ky = 1 ∧ kx = 1 then 1 + 4 * amount else -amount

/-- `applySharpen` (src/tester.cpp lines 191-239): direct 3×3
convolution with `sharpenKernel`, boundary-clamped reads, result
clamped to `[0, 255]` and stored as `unsigned char`. -/
noncomputable def applySharpen (input : Image) (amount : ℝ) : Image :=
  { width := input.width
    height := input.height
    pix := fun x y =>
      if x < input.width ∧ y < input.height then
        { r := duchar (min 255 (max 0 (loopSum2 3 (fun ky kx =>
            ((input.pix (clampIdx ((x : ℤ) + kx - 1) input.width)
                (clampIdx ((y : ℤ) + ky - 1) input.height)).r : ℝ) * sharpenKernel amount ky kx))))
          g := duchar (min 255 (max 0 (loopSum2 3 (fun ky kx =>
            ((input.pix (clampIdx ((x : ℤ) + kx - 1) input.width)
                (clampIdx ((y : ℤ) + ky - 1) input.height)).g : ℝ) * sharpenKernel amount ky kx))))
          b := duchar (min 255 (max 0 (loopSum2 3 (fun ky kx =>
            ((input.pix (clampIdx ((x : ℤ) + kx - 1) input.width)
                (clampIdx ((y : ℤ) + ky - 1) input.height)).b : ℝ) * sharpenKernel amount ky kx)))) }
      else { r := 0, g := 0, b := 0 } }

/-- `cv::Mat` depth as used by calculatePSNR: `CV_8U`, `CV_16U`, other
(floating point). -/
inductive MatDepth where
  | u8 : MatDepth
  | u16 : MatDepth
  | f32 : MatDepth
deriving DecidableEq

/-- `cv::Mat`: a `rows × cols` grid of `channels`-channel integer
samples; `data y x c` models the sample at row `y`, column `x`,
channel `c`. -/
structure Mat where
  rows : ℕ
  cols : ℕ
  channels : ℕ
  depth : MatDepth
  data : ℕ → ℕ → ℕ → ℕ

/-- `cv::Mat::empty()`: no pixels. -/
def Mat.isEmpty (m : Mat) : Prop :=
  m.rows = 0 ∨ m.cols = 0

instance (m : Mat) : Decidable m.isEmpty := by
  unfold Mat.isEmpty
  infer_instance

/-- All in-range samples of an 8-bit matrix are `≤ 255`. -/
def Mat.wf (m : Mat) : Prop :=
  ∀ y < m.rows, ∀ x < m.cols, ∀ c < m.channels, m.data y x c ≤ 255

/-- Buffer equality: same shape, type and in-range samples.  (The
sample functions of the model are unconstrained out of range, so
structural equality is not the right notion of buffer equality.) -/
def Mat.eqv (a b : Mat) : Prop :=
  a.rows = b.rows ∧ a.cols = b.cols ∧ a.channels = b.channels ∧ a.depth = b.depth ∧
    ∀ y < a.rows, ∀ x < a.cols, ∀ c < a.channels, a.data y x c = b.data y x c

/-- The per-sample body of `applyUnsharpMask` (src/filters.cpp
lines 110-136): `detail = orig - blur`, zeroed below the threshold,
then `clamp(orig + amount*detail, 0, 255)` stored as `unsigned char`. -/
noncomputable def unsharpSample (origVal blurVal amount threshold : ℝ) : ℕ :=
  duchar (min 255 (max 0
    (origVal + amount * (if |origVal - blurVal| < threshold then 0 else origVal - blurVal))))

/-- `applyUnsharpMask` (src/filters.cpp lines 76-142): validation
guards return the empty error result (`none`); otherwise a
`cv::Mat::zeros` of the original's shape is filled per sample. -/
noncomputable def applyUnsharpMask (original blurred : Mat) (amount threshold : ℝ) :
    Option Mat :=
  if original.isEmpty ∨ blurred.isEmpty then none
  else if ¬(original.rows = blurred.rows ∧ original.cols = blurred.cols) then none
  else if original.channels ≠ blurred.channels then none
  else some
    { rows := original.rows
      cols := original.cols
      channels := original.channels
      depth := original.depth
      data := fun y x c =>
        if y < original.rows ∧ x < original.cols ∧ c < original.channels then
          unsharpSample (original.data y x c) (blurred.data y x c) amount threshold
        else 0 }

/-- `calculateCompositeScore` (src/filters.cpp lines 167-187). -/
noncomputable def calculateCompositeScore (psnr ssim : ℝ) : ℝ :=
  if psnr < 0 ∨ ssim < 0 then -1
  else 0.5 * min (psnr / 50) 1 + 0.5 * ssim

/-- Sum of squared per-sample differences of two matrices, over all
rows, columns and channels (src/psnr.cpp lines 44-63, computed in
floating point; the samples are integers so the value is rational). -/
def matSSE (a b : Mat) : ℚ :=
  ∑ y ∈ Finset.range a.rows, ∑ x ∈ Finset.range a.cols, ∑ c ∈ Finset.range a.channels,
    ((a.data y x c : ℚ) - b.data y x c) * ((a.data y x c : ℚ) - b.data y x c)

/-- `mse = sse / (total() * channels())` (src/psnr.cpp lines 65-72). -/
def matMSE (a b : Mat) : ℚ :=
  matSSE a b / (a.rows * a.cols * a.channels : ℕ)

/-- `max_pixel_value` selection by depth (src/psnr.cpp lines 85-92). -/
def maxPixelValue (m : Mat) : ℝ :=
  match m.depth with
  | .u8 => 255
  | .u16 => 65535
  | .f32 => 1

/-- The three distinguishable outcomes of `calculatePSNR`: the `-1.0`
error sentinel, `std::numeric_limits<double>::infinity()`, or a finite
decibel value. -/
inductive PSNRResult where
  | error : PSNRResult
  | infinity : PSNRResult
  | value : ℝ → PSNRResult

/-- `calculatePSNR` (src/psnr.cpp lines 16-111): validation guards,
the `mse == 0` infinity case, otherwise `10 * log10(max²/mse)`. -/
noncomputable def calculatePSNR (original compressed : Mat) : PSNRResult :=
  if original.isEmpty ∨ compressed.isEmpty then .error
  else if ¬(original.rows = compressed.rows ∧ original.cols = compressed.cols) then .error
  else if original.channels ≠ compressed.channels then .error
  else if matMSE original compressed = 0 then .infinity
  else .value (10 * Real.logb 10
    ((maxPixelValue original * maxPixelValue original) / (matMSE original compressed : ℝ)))

/-- Real view of a matrix's samples (`convertTo(..., CV_32F)` /
`CV_64F`). -/
def fdata (m : Mat) : ℕ → ℕ → ℕ → ℝ :=
  fun y x c => (m.data y x c : ℝ)

/-- Modelled from the spec: `cv::GaussianBlur(·, ·, cv::Size(11, 11), 1.5)`
is an external OpenCV call, specified in §4.6/§4.2/§4.1 as an
11×11 Gaussian-weighted local average with `σ = 1.5`, weights built by
the §4.2 kernel construction (normalised to sum to 1, identical σ on
both axes, hence the product kernel) and boundary-clamped reads.  Each
channel is filtered independently. -/
noncomputable def gaussianWindow (rows cols : ℕ) (f : ℕ → ℕ → ℕ → ℝ) : ℕ → ℕ → ℕ → ℝ :=
  fun y x c =>
    ∑ j ∈ Finset.range 11, ∑ i ∈ Finset.range 11,
      gaussKernel1D 11 (3 / 2) j * gaussKernel1D 11 (3 / 2) i *
        f (clampIdx ((y : ℤ) + j - 5) rows) (clampIdx ((x : ℤ) + i - 5) cols) c

/-- Local mean `μ` of a matrix (src/ssim.cpp Part 5). -/
noncomputable def ssimMu (m : Mat) : ℕ → ℕ → ℕ → ℝ :=
  gaussianWindow m.rows m.cols (fdata m)

/-- Local second moment: Gaussian-window average of the pixel-wise
product of two matrices (src/ssim.cpp Parts 4 and 7), over the first
matrix's shape. -/
noncomputable def ssimMoment (a b : Mat) : ℕ → ℕ → ℕ → ℝ :=
  gaussianWindow a.rows a.cols (fun y x c => fdata a y x c * fdata b y x c)

/-- `C1 = (0.01 * 255)^2` (src/ssim.cpp line 53). -/
noncomputable def ssimC1 : ℝ := (0.01 * 255) * (0.01 * 255)

/-- `C2 = (0.03 * 255)^2` (src/ssim.cpp line 54). -/
noncomputable def ssimC2 : ℝ := (0.03 * 255) * (0.03 * 255)

/-- Per-pixel SSIM map (src/ssim.cpp Parts 6-8):
`[(2 μ_A μ_B + C1)(2 σ_AB + C2)] / [(μ_A² + μ_B² + C1)(σ_A² + σ_B² + C2)]`
with `σ_A² = E[A²] − μ_A²`, `σ_AB = E[AB] − μ_A μ_B`; `cv::divide`
returns 0 on a zero denominator, as does real division. -/
noncomputable def ssimMap (a b : Mat) : ℕ → ℕ → ℕ → ℝ :=
  fun y x c =>
    ((2 * (ssimMu a y x c * ssimMu b y x c) + ssimC1) *
        (2 * (ssimMoment a b y x c - ssimMu a y x c * ssimMu b y x c) + ssimC2)) /
      ((ssimMu a y x c * ssimMu a y x c + ssimMu b y x c * ssimMu b y x c + ssimC1) *
        ((ssimMoment a a y x c - ssimMu a y x c * ssimMu a y x c) +
          (ssimMoment b b y x c - ssimMu b y x c * ssimMu b y x c) + ssimC2))

/-- `computeSSIM` (src/ssim.cpp lines 16-202): validation guards
return `-1.0`; otherwise the mean of the per-pixel SSIM map over
channel 0 (`cv::mean(ssimMap)[0]`). -/
noncomputable def computeSSIM (imageA imageB : Mat) : ℝ :=
  if imageA.isEmpty ∨ imageB.isEmpty then -1
  else if imageA.rows ≠ imageB.rows ∨ imageA.cols ≠ imageB.cols then -1
  else if imageA.depth ≠ imageB.depth ∨ imageA.channels ≠ imageB.channels then -1
  else (∑ y ∈ Finset.range imageA.rows, ∑ x ∈ Finset.range imageA.cols,
      ssimMap imageA imageB y x 0) / (imageA.rows * imageA.cols : ℕ)

lemma loopSum_eq_sum (n : ℕ) (f : ℕ → ℝ) :
    loopSum n f = ∑ i ∈ Finset.range n, f i := by
  induction n with
  | zero => simp [loopSum]
  | succ m ih =>
    have h : loopSum (m + 1) f = loopSum m f + f m := by
      simp [loopSum, List.range_succ]
    rw [h, ih, Finset.sum_range_succ]

lemma loopSum2_eq_sum (n : ℕ) (f : ℕ → ℕ → ℝ) :
    loopSum2 n f = ∑ j ∈ Finset.range n, ∑ i ∈ Finset.range n, f j i := by
  rw [loopSum2, loopSum_eq_sum]
  exact Finset.sum_congr rfl fun j _ => loopSum_eq_sum n (f j)

lemma duchar_of_natCast (n : ℕ) : duchar (n : ℝ) = n := by
  simp [duchar]

lemma duchar_le_of_le (x : ℝ) (m : ℕ) (h : x ≤ m) : duchar x ≤ m := by
  have h1 : ⌊x⌋ ≤ (m : ℤ) := by
    calc ⌊x⌋ ≤ ⌊(m : ℝ)⌋ := Int.floor_le_floor h
    _ = (m : ℤ) := Int.floor_natCast m
  simpa [duchar] using Int.toNat_le.mpr h1

lemma le_duchar_of_le (x : ℝ) (m : ℕ) (h : (m : ℝ) ≤ x) : m ≤ duchar x := by
  have h1 : (m : ℤ) ≤ ⌊x⌋ := by
    exact_mod_cast Int.le_floor.mpr (by exact_mod_cast h)
  simpa [duchar] using Int.toNat_le_toNat h1

lemma gaussEntry_pos (k : ℕ) (s : ℝ) (i : ℕ) : 0 < gaussEntry k s i :=
  Real.exp_pos _

lemma loopSum_gaussEntry_pos (k : ℕ) (s : ℝ) (hk : 0 < k) :
    0 < loopSum k (fun j => gaussEntry k s j) := by
  rw [loopSum_eq_sum]
  exact Finset.sum_pos (fun j _ => gaussEntry_pos k s j)
    (Finset.nonempty_range_iff.mpr hk.ne')

lemma gaussKernel1D_pos (k : ℕ) (s : ℝ) (hk : 0 < k) (i : ℕ) :
    0 < gaussKernel1D k s i :=
  div_pos (gaussEntry_pos k s i) (loopSum_gaussEntry_pos k s hk)

lemma gaussKernel1D_sum (k : ℕ) (s : ℝ) (hk : 0 < k) :
    ∑ i ∈ Finset.range k, gaussKernel1D k s i = 1 := by
  unfold gaussKernel1D
  rw [← Finset.sum_div, ← loopSum_eq_sum]
  exact div_self (loopSum_gaussEntry_pos k s hk).ne'

/-- Jensen's inequality for a finite convex combination applied to the
square: the square of a weighted mean is at most the weighted mean of
the squares. -/
lemma sq_weighted_mean_le {ι : Type} (s : Finset ι) (w a : ι → ℝ)
    (hw : ∀ i ∈ s, 0 ≤ w i) (hsum : ∑ i ∈ s, w i = 1) :
    (∑ i ∈ s, w i * a i) ^ 2 ≤ ∑ i ∈ s, w i * a i ^ 2 := by
  have hcs := Finset.sum_mul_sq_le_sq_mul_sq s
    (fun i => Real.sqrt (w i)) (fun i => Real.sqrt (w i) * a i)
  have h1 : ∀ i ∈ s, Real.sqrt (w i) * (Real.sqrt (w i) * a i) = w i * a i := by
    intro i hi
    rw [← mul_assoc, Real.mul_self_sqrt (hw i hi)]
  have h2 : ∀ i ∈ s, Real.sqrt (w i) ^ 2 = w i := by
    intro i hi
    exact Real.sq_sqrt (hw i hi)
  have h3 : ∀ i ∈ s, (Real.sqrt (w i) * a i) ^ 2 = w i * a i ^ 2 := by
    intro i hi
    rw [mul_pow, h2 i hi]
  rw [Finset.sum_congr rfl h1, Finset.sum_congr rfl h2, Finset.sum_congr rfl h3, hsum,
    one_mul] at hcs
  exact hcs

/-- C7: for psnr ≥ 0 and ssim ≥ 0, `calculateCompositeScore` returns
`0.5·min(psnr/50, 1) + 0.5·ssim`; it returns a negative sentinel when
either input is negative; psnr ≥ 50 with ssim = 1 yields exactly 1,
and psnr = 0 with ssim = 0 yields exactly 0. -/
theorem composite_score_spec (psnr ssim : ℝ) :
    (0 ≤ psnr → 0 ≤ ssim →
      calculateCompositeScore psnr ssim = 0.5 * min (psnr / 50) 1 + 0.5 * ssim) ∧
    (psnr < 0 ∨ ssim < 0 → calculateCompositeScore psnr ssim < 0) ∧
    (50 ≤ psnr → ssim = 1 → calculateCompositeScore psnr ssim = 1) ∧
    (psnr = 0 → ssim = 0 → calculateCompositeScore psnr ssim = 0) := by
  refine ⟨?_, ?_, ?_, ?_⟩
  · intro hp hs
    rw [calculateCompositeScore, if_neg (by push_neg; exact ⟨hp, hs⟩)]
  · intro h
    rw [calculateCompositeScore, if_pos h]
    norm_num
  · intro hp hs
    have hp0 : ¬(psnr < 0 ∨ ssim < 0) := by
      push_neg
      exact ⟨le_trans (by norm_num) hp, by rw [hs]; norm_num⟩
    rw [calculateCompositeScore, if_neg hp0, hs,
      min_eq_right ((one_le_div (by norm_num : (0:ℝ) < 50)).mpr hp)]
    norm_num
  · intro hp hs
    have hp0 : ¬(psnr < 0 ∨ ssim < 0) := by
      push_neg
      rw [hp, hs]
      exact ⟨le_refl 0, le_refl 0⟩
    rw [calculateCompositeScore, if_neg hp0, hp, hs]
    norm_num

theorem composite_score_spec_witness :
    calculateCompositeScore 50 1 = 1 ∧ calculateCompositeScore (-1) 0 < 0 :=
  ⟨(composite_score_spec 50 1).2.2.1 (by norm_num) rfl,
    (composite_score_spec (-1) 0).2.1 (Or.inl (by norm_num))⟩

/-- C3: for every non-empty buffer A, `calculatePSNR A A` takes the
explicit infinity branch (MSE is exactly 0), not an error or sentinel
failure value. -/
theorem psnr_self_infinity (a : Mat) (hr : 0 < a.rows) (hc : 0 < a.cols) :
    calculatePSNR a a = PSNRResult.infinity := by
  have hne : ¬a.isEmpty := by
    rw [Mat.isEmpty]
    push_neg
    exact ⟨hr.ne', hc.ne'⟩
  have hsse : matSSE a a = 0 := by
    simp [matSSE]
  have hmse : matMSE a a = 0 := by
    rw [matMSE, hsse, zero_div]
  rw [calculatePSNR, if_neg (by simp [hne]), if_neg (by simp), if_neg (by simp),
    if_pos hmse]

/-- Generic 1×1 single-channel 8-bit buffer with value 100, used as a
concrete input by witnesses. -/
def mat1 : Mat :=
  { rows := 1, cols := 1, channels := 1, depth := .u8, data := fun _ _ _ => 100 }

theorem psnr_self_infinity_witness :
    calculatePSNR mat1 mat1 = PSNRResult.infinity :=
  psnr_self_infinity mat1 (by decide) (by decide)

/-- 4×4 single-channel 8-bit buffer, every sample 100. -/
def matA100 : Mat :=
  { rows := 4, cols := 4, channels := 1, depth := .u8, data := fun _ _ _ => 100 }

/-- 4×4 single-channel 8-bit buffer, every sample 110. -/
def matB110 : Mat :=
  { rows := 4, cols := 4, channels := 1, depth := .u8, data := fun _ _ _ => 110 }

/-- C9: for the all-100 vs all-110 4×4 8-bit buffers, the mean squared
error is exactly 100 and `calculatePSNR` returns
`10·log10(65025/100)` dB. -/
theorem psnr_scenario_100_110 :
    matMSE matA100 matB110 = 100 ∧
    calculatePSNR matA100 matB110 = PSNRResult.value (10 * Real.logb 10 (65025 / 100)) := by
  have hmse : matMSE matA100 matB110 = 100 := by
    rw [matMSE, matSSE]
    norm_num [matA100, matB110]
  refine ⟨hmse, ?_⟩
  rw [calculatePSNR, if_neg (by decide), if_neg (by decide), if_neg (by decide),
    if_neg (by rw [hmse]; norm_num), hmse]
  norm_num [maxPixelValue, matA100]

/-- C6: blurring input equal to the original makes the unsharp mask a
no-op: for every valid non-empty buffer A and every amount,
`applyUnsharpMask A A amount 0` succeeds and returns a buffer equal
to A. -/
theorem unsharp_mask_noop (a : Mat) (hr : 0 < a.rows) (hc : 0 < a.cols) (hwf : a.wf)
    (amount : ℝ) :
    ∃ b : Mat, applyUnsharpMask a a amount 0 = some b ∧ b.eqv a := by
  have hne : ¬a.isEmpty := by
    rw [Mat.isEmpty]
    push_neg
    exact ⟨hr.ne', hc.ne'⟩
  rw [applyUnsharpMask, if_neg (by simp [hne]), if_neg (by simp), if_neg (by simp)]
  refine ⟨_, rfl, rfl, rfl, rfl, rfl, ?_⟩
  intro y hy x hx c hcc
  have hvle : a.data y x c ≤ 255 := hwf y hy x hx c hcc
  have hval : unsharpSample (a.data y x c) (a.data y x c) amount 0 = a.data y x c := by
    rw [unsharpSample, sub_self, abs_zero, if_neg (lt_irrefl (0 : ℝ)), mul_zero, add_zero,
      max_eq_right (by positivity), min_eq_right (by exact_mod_cast hvle),
      duchar_of_natCast]
  simp only [hy, hx, hcc, and_self, if_true, hval]

theorem unsharp_mask_noop_witness :
    ∃ b : Mat, applyUnsharpMask mat1 mat1 (3 / 2) 0 = some b ∧ b.eqv mat1 :=
  unsharp_mask_noop mat1 (by decide) (by decide)
    (fun y _ x _ c _ => by simp [mat1]) (3 / 2)

/-- Generic 1×1 grey image used as a concrete input by witnesses. -/
def img1 : Image :=
  { width := 1, height := 1, pix := fun _ _ => { r := 100, g := 100, b := 100 } }

/-- C8: the fast bilateral variant equals the plain bilateral filter
at the kernel size capped to 9; in particular the two agree exactly
whenever the requested size is at most 9. -/
theorem bilateral_fast_cap (input : Image) (k : ℕ) (ss sr : ℝ) :
    applyBilateralFilterFast input k ss sr = applyBilateralFilter input (min k 9) ss sr ∧
    (k ≤ 9 → applyBilateralFilterFast input k ss sr = applyBilateralFilter input k ss sr) := by
  refine ⟨rfl, fun h => ?_⟩
  rw [applyBilateralFilterFast, min_eq_left h]

theorem bilateral_fast_cap_witness :
    applyBilateralFilterFast img1 3 1 1 = applyBilateralFilter img1 3 1 1 :=
  (bilateral_fast_cap img1 3 1 1).2 (by norm_num)

lemma duchar_zero : duchar 0 = 0 := by
  simp [duchar]

lemma loopSum_zero (f : ℕ → ℝ) : loopSum 0 f = 0 := by
  simp [loopSum]

/-- C2 (amended): `applyGaussianBlur` performs no parameter
validation and has no error path at all: for every kernel size and σ
it returns a buffer of the input's dimensions (never a sentinel
empty buffer), and for kernel size 0 every pixel of that buffer is
zero — the empty kernel loop leaves the accumulators at 0. -/
theorem gaussian_blur_no_error_path (input : Image) (kernelSize : ℕ) (sigma : ℝ) :
    (applyGaussianBlur input kernelSize sigma).width = input.width ∧
    (applyGaussianBlur input kernelSize sigma).height = input.height ∧
    (kernelSize = 0 → ∀ x < input.width, ∀ y < input.height,
      (applyGaussianBlur input kernelSize sigma).pix x y = { r := 0, g := 0, b := 0 }) := by
  refine ⟨rfl, rfl, ?_⟩
  rintro rfl x hx y hy
  show (if x < input.width ∧ y < input.height then _ else _) = _
  rw [if_pos ⟨hx, hy⟩]
  simp only [loopSum_zero, duchar_zero]

/-- C2 counterexample: with kernel size 0 (a non-positive kernel
size) the Gaussian blur does not fail: it returns a non-empty 1×1
buffer — whose pixel is (0,0,0) — rather than the sentinel empty
buffer that §7 of the spec uses to report failures. -/
theorem gaussian_blur_k0_returns_buffer :
    (applyGaussianBlur img1 0 1).width = 1 ∧
    (applyGaussianBlur img1 0 1).height = 1 ∧
    (applyGaussianBlur img1 0 1).pix 0 0 = { r := 0, g := 0, b := 0 } := by
  refine ⟨rfl, rfl, ?_⟩
  simp only [applyGaussianBlur, gaussVertical, gaussHorizontal, img1]
  norm_num [loopSum_zero, duchar_zero]

theorem gaussian_blur_no_error_path_witness :
    (applyGaussianBlur img1 5 1).width = 1 ∧
    (applyGaussianBlur img1 5 1).height = 1 :=
  ⟨(gaussian_blur_no_error_path img1 5 1).1, (gaussian_blur_no_error_path img1 5 1).2.1⟩

/-- The 3×3 sharpen kernel exactly as the spec states it: centre
weight `1 + 4·amount`, weight `-amount` on the four orthogonal
neighbours, weight 0 on the four corners. -/
def specSharpenKernel (amount : ℝ) (dy dx : ℤ) : ℝ :=
  if dy = 0 ∧ dx = 0 then 1 + 4 * amount
  else if dy = 0 ∨ dx = 0 then -amount
  else 0

/-- The output sample the spec's fixed-sharpen description assigns:
direct 3×3 convolution with `specSharpenKernel`, boundary-clamped
reads, clamped to the valid sample domain [0, 255]. -/
noncomputable def specSharpenSample (input : Image) (amount : ℝ) (x y : ℕ) (c : Fin 3) : ℕ :=
  duchar (min 255 (max 0 (∑ dy ∈ Finset.Icc (-1 : ℤ) 1, ∑ dx ∈ Finset.Icc (-1 : ℤ) 1,
    specSharpenKernel amount dy dx *
      ((input.pix (clampIdx ((x : ℤ) + dx) input.width)
          (clampIdx ((y : ℤ) + dy) input.height)).chan c : ℝ))))

lemma sum_Icc_neg_one_one (f : ℤ → ℝ) :
    ∑ d ∈ Finset.Icc (-1 : ℤ) 1, f d = f (-1) + f 0 + f 1 := by
  have h : Finset.Icc (-1 : ℤ) 1 = {-1, 0, 1} := by decide
  rw [h, Finset.sum_insert (by decide), Finset.sum_insert (by decide),
    Finset.sum_singleton]
  ring

/-- 3×3 image: every pixel (100,100,100) except the top-left corner
pixel (0,0), which is (200,200,200). -/
def imgSharp : Image :=
  { width := 3
    height := 3
    pix := fun x y =>
      if x = 0 ∧ y = 0 then { r := 200, g := 200, b := 200 }
      else { r := 100, g := 100, b := 100 } }

/-- C1: at the centre of `imgSharp` with amount 1 the code stores 0
(its scaling loop overwrites the corner weights of the literal kernel
`{{0,-1,0},{-1,5,-1},{0,-1,0}}` with `-amount`, so the 200-valued
corner is subtracted and the sum -400 clamps to 0), while the 3×3
kernel stated by the spec — corners 0 — yields 100. -/
theorem sharpen_corner_weight_bug :
    ((applySharpen imgSharp 1).pix 1 1).chan 0 = 0 ∧
    specSharpenSample imgSharp 1 1 1 0 = 100 := by
  constructor
  · simp only [applySharpen, imgSharp, RGB.chan]
    norm_num
    rw [loopSum2_eq_sum]
    norm_num [Finset.sum_range_succ, clampIdx, sharpenKernel]
    exact duchar_zero
  · rw [specSharpenSample]
    norm_num [sum_Icc_neg_one_one, imgSharp, clampIdx, specSharpenKernel, RGB.chan]
    rw [show ((100 : ℝ) = ((100 : ℕ) : ℝ)) by norm_num, duchar_of_natCast]

lemma bilatWeight_pos (input : Image) (o : ℕ) (ss sr : ℝ) (x y j i : ℕ) :
    0 < bilatWeight input o ss sr x y j i :=
  mul_pos (Real.exp_pos _) (Real.exp_pos _)

lemma clampIdx_lt (v : ℤ) (hi : ℕ) (h : 0 < hi) : clampIdx v hi < hi := by
  rw [clampIdx]
  omega

/-- The stored bilateral sample, loop accumulators rewritten as sums:
each in-range output channel is the `unsigned char` store of
`(Σ neighbour·weight) / (Σ weight)` over the clamped
`(2·(kernelSize/2)+1)²` neighbourhood. -/
lemma bilateral_pix_chan (input : Image) (k : ℕ) (ss sr : ℝ) (x y : ℕ)
    (hx : x < input.width) (hy : y < input.height) (c : Fin 3) :
    ((applyBilateralFilter input k ss sr).pix x y).chan c =
      duchar ((∑ j ∈ Finset.range (2 * (k / 2) + 1), ∑ i ∈ Finset.range (2 * (k / 2) + 1),
          (bilatNeighbor input (k / 2) x y j i c : ℝ) * bilatWeight input (k / 2) ss sr x y j i) /
        ∑ j ∈ Finset.range (2 * (k / 2) + 1), ∑ i ∈ Finset.range (2 * (k / 2) + 1),
          bilatWeight input (k / 2) ss sr x y j i) := by
  fin_cases c <;>
    simp only [applyBilateralFilter, if_pos (And.intro hx hy), RGB.chan, loopSum2_eq_sum] <;>
    rfl

lemma bilatWeightSum_pos (input : Image) (k : ℕ) (ss sr : ℝ) (x y : ℕ) :
    0 < ∑ j ∈ Finset.range (2 * (k / 2) + 1), ∑ i ∈ Finset.range (2 * (k / 2) + 1),
      bilatWeight input (k / 2) ss sr x y j i := by
  have hne : (Finset.range (2 * (k / 2) + 1)).Nonempty :=
    Finset.nonempty_range_iff.mpr (by omega)
  exact Finset.sum_pos
    (fun j _ => Finset.sum_pos (fun i _ => bilatWeight_pos input (k / 2) ss sr x y j i) hne) hne

/-- C10: each channel of each in-range output pixel of the bilateral
filter lies between every lower bound and every upper bound of that
channel over the input (the pre-store quotient is a convex combination
of input samples with positive normalised weights), and fits the
8-bit domain for a well-formed input. -/
theorem bilateral_range_bounded (input : Image) (k : ℕ) (ss sr : ℝ)
    (hk : 1 ≤ k) (hss : 0 < ss) (hsr : 0 < sr) (hwf : input.wf)
    (x y : ℕ) (hx : x < input.width) (hy : y < input.height) (c : Fin 3) :
    (∀ lo : ℕ, (∀ x' < input.width, ∀ y' < input.height, lo ≤ (input.pix x' y').chan c) →
      lo ≤ ((applyBilateralFilter input k ss sr).pix x y).chan c) ∧
    (∀ hi : ℕ, (∀ x' < input.width, ∀ y' < input.height, (input.pix x' y').chan c ≤ hi) →
      ((applyBilateralFilter input k ss sr).pix x y).chan c ≤ hi) ∧
    ((applyBilateralFilter input k ss sr).pix x y).chan c ≤ 255 := by
  have hW := bilatWeightSum_pos input k ss sr x y
  have hwid : 0 < input.width := lt_of_le_of_lt (Nat.zero_le x) hx
  have hhei : 0 < input.height := lt_of_le_of_lt (Nat.zero_le y) hy
  have hnb : ∀ lohi : ℕ, ∀ j i : ℕ,
      (∀ x' < input.width, ∀ y' < input.height, (input.pix x' y').chan c ≤ lohi) →
      bilatNeighbor input (k / 2) x y j i c ≤ lohi := by
    intro lohi j i hb
    exact hb _ (clampIdx_lt _ _ hwid) _ (clampIdx_lt _ _ hhei)
  have hnb' : ∀ lohi : ℕ, ∀ j i : ℕ,
      (∀ x' < input.width, ∀ y' < input.height, lohi ≤ (input.pix x' y').chan c) →
      lohi ≤ bilatNeighbor input (k / 2) x y j i c := by
    intro lohi j i hb
    exact hb _ (clampIdx_lt _ _ hwid) _ (clampIdx_lt _ _ hhei)
  have hhi : ∀ hi : ℕ, (∀ x' < input.width, ∀ y' < input.height,
      (input.pix x' y').chan c ≤ hi) →
      ((applyBilateralFilter input k ss sr).pix x y).chan c ≤ hi := by
    intro hi hb
    rw [bilateral_pix_chan input k ss sr x y hx hy c]
    apply duchar_le_of_le
    rw [div_le_iff₀ hW, Finset.mul_sum]
    refine Finset.sum_le_sum fun j _ => ?_
    rw [Finset.mul_sum]
    refine Finset.sum_le_sum fun i _ => ?_
    exact mul_le_mul_of_nonneg_right
      (by exact_mod_cast hnb hi j i hb) (bilatWeight_pos input (k / 2) ss sr x y j i).le
  refine ⟨?_, hhi, hhi 255 fun x' hx' y' hy' => hwf x' hx' y' hy' c⟩
  intro lo hb
  rw [bilateral_pix_chan input k ss sr x y hx hy c]
  apply le_duchar_of_le
  rw [le_div_iff₀ hW, Finset.mul_sum]
  refine Finset.sum_le_sum fun j _ => ?_
  rw [Finset.mul_sum]
  refine Finset.sum_le_sum fun i _ => ?_
  exact mul_le_mul_of_nonneg_right
    (by exact_mod_cast hnb' lo j i hb) (bilatWeight_pos input (k / 2) ss sr x y j i).le

theorem bilateral_range_bounded_witness :
    100 ≤ ((applyBilateralFilter img1 1 1 1).pix 0 0).chan 0 ∧
    ((applyBilateralFilter img1 1 1 1).pix 0 0).chan 0 ≤ 255 :=
  ⟨(bilateral_range_bounded img1 1 1 1 (le_refl 1) (by norm_num) (by norm_num)
      (fun x _ y _ c => by fin_cases c <;> simp [img1, RGB.chan])
      0 0 (by decide) (by decide) 0).1 100
      (fun x _ y _ => by simp [img1, RGB.chan]),
    (bilateral_range_bounded img1 1 1 1 (le_refl 1) (by norm_num) (by norm_num)
      (fun x _ y _ c => by fin_cases c <;> simp [img1, RGB.chan])
      0 0 (by decide) (by decide) 0).2.2⟩

lemma duchar_eq_zero (x : ℝ) (h0 : 0 ≤ x) (h1 : x < 1) : duchar x = 0 := by
  rw [duchar, Int.floor_eq_zero_iff.mpr (Set.mem_Ico.mpr ⟨h0, h1⟩)]
  rfl

lemma sum_range_center (o : ℕ) (f : ℕ → ℝ) (g : ℤ → ℝ)
    (h : ∀ j ∈ Finset.range (2 * o + 1), f j = g ((j : ℤ) - o)) :
    ∑ j ∈ Finset.range (2 * o + 1), f j = ∑ d ∈ Finset.Icc (-(o : ℤ)) (o : ℤ), g d := by
  refine Finset.sum_nbij' (fun j => (j : ℤ) - o) (fun d => (d + o).toNat) ?_ ?_ ?_ ?_ h
  · intro a ha
    rw [Finset.mem_range] at ha
    rw [Finset.mem_Icc]
    dsimp only
    omega
  · intro a ha
    rw [Finset.mem_Icc] at ha
    rw [Finset.mem_range]
    dsimp only
    omega
  · intro a ha
    rw [Finset.mem_range] at ha
    dsimp only
    omega
  · intro a ha
    rw [Finset.mem_Icc] at ha
    dsimp only
    omega

/-- The per-channel value the claim's bilateral formula denotes:
`Σ w(p,q)·q / Σ w(p,q)` over the boundary-clamped square
neighbourhood of offsets `-⌊k/2⌋ .. ⌊k/2⌋`, with
`w(p,q) = exp(-‖p-q‖²/(2σ_s²)) · exp(-colorDist(p,q)²/(2σ_r²))` and
`colorDist` the sum of squared per-channel differences between the
neighbour and the centre pixel's colour. -/
noncomputable def bilateralSpecValue (input : Image) (kernelSize : ℕ) (ss sr : ℝ)
    (x y : ℕ) (c : Fin 3) : ℝ :=
  (∑ dy ∈ Finset.Icc (-(kernelSize / 2 : ℕ) : ℤ) ((kernelSize / 2 : ℕ) : ℤ),
      ∑ dx ∈ Finset.Icc (-(kernelSize / 2 : ℕ) : ℤ) ((kernelSize / 2 : ℕ) : ℤ),
        Real.exp (-((dx ^ 2 + dy ^ 2 : ℤ) : ℝ) / (2 * ss ^ 2)) *
          Real.exp (-((colorDifference (input.pix x y)
              (input.pix (clampIdx ((x : ℤ) + dx) input.width)
                (clampIdx ((y : ℤ) + dy) input.height)) ^ 2 : ℤ) : ℝ) / (2 * sr ^ 2)) *
          ((input.pix (clampIdx ((x : ℤ) + dx) input.width)
              (clampIdx ((y : ℤ) + dy) input.height)).chan c : ℝ)) /
    ∑ dy ∈ Finset.Icc (-(kernelSize / 2 : ℕ) : ℤ) ((kernelSize / 2 : ℕ) : ℤ),
      ∑ dx ∈ Finset.Icc (-(kernelSize / 2 : ℕ) : ℤ) ((kernelSize / 2 : ℕ) : ℤ),
        Real.exp (-((dx ^ 2 + dy ^ 2 : ℤ) : ℝ) / (2 * ss ^ 2)) *
          Real.exp (-((colorDifference (input.pix x y)
              (input.pix (clampIdx ((x : ℤ) + dx) input.width)
                (clampIdx ((y : ℤ) + dy) input.height)) ^ 2 : ℤ) : ℝ) / (2 * sr ^ 2))

/-- C5 (amended): every in-range output channel of the bilateral
filter is the integer truncation of the claim's quotient
`Σ w(p,q)·q / Σ w(p,q)`, taken over the clamped square neighbourhood
of side `2·⌊k/2⌋+1` (equal to k whenever k is odd). -/
theorem bilateral_formula_trunc (input : Image) (k : ℕ) (ss sr : ℝ)
    (hk : 1 ≤ k) (hss : 0 < ss) (hsr : 0 < sr)
    (x y : ℕ) (hx : x < input.width) (hy : y < input.height) (c : Fin 3) :
    ((applyBilateralFilter input k ss sr).pix x y).chan c =
      duchar (bilateralSpecValue input k ss sr x y c) := by
  rw [bilateral_pix_chan input k ss sr x y hx hy c, bilateralSpecValue]
  congr 1
  congr 1
  · apply sum_range_center
    intro j hj
    apply sum_range_center
    intro i hi
    rw [mul_comm]
    show bilatWeight input (k / 2) ss sr x y j i * (bilatNeighbor input (k / 2) x y j i c : ℝ) = _
    rw [bilatWeight, spatialWeight, rangeWeight, bilatNeighbor]
    congr 2
    · congr 1
      push_cast
      ring
    · congr 1
      push_cast
      ring
  · apply sum_range_center
    intro j hj
    apply sum_range_center
    intro i hi
    rw [bilatWeight, spatialWeight, rangeWeight]
    congr 1
    · congr 1
      push_cast
      ring
    · congr 1
      push_cast
      ring

theorem bilateral_formula_trunc_witness :
    ((applyBilateralFilter img1 3 1 1).pix 0 0).chan 0 =
      duchar (bilateralSpecValue img1 3 1 1 0 0 0) :=
  bilateral_formula_trunc img1 3 1 1 (by norm_num) (by norm_num) (by norm_num)
    0 0 (by decide) (by decide) 0

/-- 2×1 image whose left pixel is (0,0,0) and right pixel (1,1,1). -/
def imgC5 : Image :=
  { width := 2
    height := 1
    pix := fun x y => if x = 1 ∧ y = 0 then { r := 1, g := 1, b := 1 } else { r := 0, g := 0, b := 0 } }

lemma imgC5_chan_le_one : ∀ x y : ℕ, ∀ c : Fin 3, (imgC5.pix x y).chan c ≤ 1 := by
  intro x y c
  fin_cases c <;> simp only [imgC5, RGB.chan] <;> split <;> norm_num

/-- C5 counterexample: on `imgC5` with kernel size 3 and both σ equal
to 1, the stored red sample of output pixel (0,0) is 0, while the
claim's quotient `Σ w·q / Σ w` there is strictly positive (it lies in
(0,1)); the stored output sample therefore differs from the claim's
stated value — the store truncates the quotient. -/
theorem bilateral_claim_counterexample :
    ((applyBilateralFilter imgC5 3 1 1).pix 0 0).chan 0 = 0 ∧
    0 < bilateralSpecValue imgC5 3 1 1 0 0 0 ∧
    (((applyBilateralFilter imgC5 3 1 1).pix 0 0).chan 0 : ℝ) ≠
      bilateralSpecValue imgC5 3 1 1 0 0 0 := by
  have hW := bilatWeightSum_pos imgC5 3 1 1 0 0
  have hle : ∀ j i : ℕ, bilatNeighbor imgC5 (3 / 2) 0 0 j i 0 ≤ 1 := by
    intro j i
    rw [bilatNeighbor]
    exact imgC5_chan_le_one _ _ 0
  have h1 : ((applyBilateralFilter imgC5 3 1 1).pix 0 0).chan 0 = 0 := by
    rw [bilateral_pix_chan imgC5 3 1 1 0 0 (by decide) (by decide) 0]
    apply duchar_eq_zero
    · apply div_nonneg _ hW.le
      refine Finset.sum_nonneg fun j _ => Finset.sum_nonneg fun i _ => ?_
      exact mul_nonneg (Nat.cast_nonneg _) (bilatWeight_pos imgC5 (3 / 2) 1 1 0 0 j i).le
    · rw [div_lt_one hW]
      refine Finset.sum_lt_sum (fun j _ => Finset.sum_le_sum fun i _ => ?_)
        ⟨0, Finset.mem_range.mpr (by norm_num), Finset.sum_lt_sum (fun i _ => ?_)
          ⟨0, Finset.mem_range.mpr (by norm_num), ?_⟩⟩
      · calc (bilatNeighbor imgC5 (3 / 2) 0 0 j i 0 : ℝ) *
              bilatWeight imgC5 (3 / 2) 1 1 0 0 j i
            ≤ 1 * bilatWeight imgC5 (3 / 2) 1 1 0 0 j i :=
              mul_le_mul_of_nonneg_right (by exact_mod_cast hle j i)
                (bilatWeight_pos imgC5 (3 / 2) 1 1 0 0 j i).le
          _ = bilatWeight imgC5 (3 / 2) 1 1 0 0 j i := one_mul _
      · calc (bilatNeighbor imgC5 (3 / 2) 0 0 0 i 0 : ℝ) *
              bilatWeight imgC5 (3 / 2) 1 1 0 0 0 i
            ≤ 1 * bilatWeight imgC5 (3 / 2) 1 1 0 0 0 i :=
              mul_le_mul_of_nonneg_right (by exact_mod_cast hle 0 i)
                (bilatWeight_pos imgC5 (3 / 2) 1 1 0 0 0 i).le
          _ = bilatWeight imgC5 (3 / 2) 1 1 0 0 0 i := one_mul _
      · rw [show bilatNeighbor imgC5 (3 / 2) 0 0 0 0 0 = 0 from by decide]
        rw [Nat.cast_zero, zero_mul]
        exact bilatWeight_pos imgC5 (3 / 2) 1 1 0 0 0 0
  have h2 : 0 < bilateralSpecValue imgC5 3 1 1 0 0 0 := by
    rw [bilateralSpecValue]
    apply div_pos
    · refine Finset.sum_pos' (fun dy _ => Finset.sum_nonneg fun dx _ => by positivity)
        ⟨0, by decide, Finset.sum_pos' (fun dx _ => by positivity) ⟨1, by decide, ?_⟩⟩
      have hc : ((imgC5.pix (clampIdx (((0 : ℕ) : ℤ) + 1) imgC5.width)
          (clampIdx (((0 : ℕ) : ℤ) + 0) imgC5.height)).chan 0 : ℝ) = 1 := by
        norm_num [imgC5, clampIdx, RGB.chan]
      rw [hc, mul_one]
      positivity
    · refine Finset.sum_pos (fun dy _ => Finset.sum_pos (fun dx _ => by positivity) ?_) ?_
      · exact ⟨0, by decide⟩
      · exact ⟨0, by decide⟩
  exact ⟨h1, h2, by rw [h1, Nat.cast_zero]; exact h2.ne⟩

lemma ssimC1_pos : 0 < ssimC1 := by
  rw [ssimC1]
  norm_num

lemma ssimC2_pos : 0 < ssimC2 := by
  rw [ssimC2]
  norm_num

lemma ssim_weight_sum_one :
    ∑ p ∈ Finset.range 11 ×ˢ Finset.range 11,
      gaussKernel1D 11 (3 / 2) p.1 * gaussKernel1D 11 (3 / 2) p.2 = 1 := by
  rw [Finset.sum_product]
  simp_rw [← Finset.mul_sum, gaussKernel1D_sum 11 (3 / 2) (by norm_num), mul_one]
  exact gaussKernel1D_sum 11 (3 / 2) (by norm_num)

lemma gaussianWindow_eq_sum_product (rows cols : ℕ) (f : ℕ → ℕ → ℕ → ℝ) (y x c : ℕ) :
    gaussianWindow rows cols f y x c =
      ∑ p ∈ Finset.range 11 ×ˢ Finset.range 11,
        gaussKernel1D 11 (3 / 2) p.1 * gaussKernel1D 11 (3 / 2) p.2 *
          f (clampIdx ((y : ℤ) + p.1 - 5) rows) (clampIdx ((x : ℤ) + p.2 - 5) cols) c := by
  rw [gaussianWindow, Finset.sum_product]

/-- Local variance is nonnegative: the Gaussian window is a convex
combination (positive weights summing to 1), so `E[A²] ≥ (E[A])²`
pointwise by Jensen / Cauchy-Schwarz. -/
lemma ssim_mu_sq_le_moment (m : Mat) (y x c : ℕ) :
    ssimMu m y x c * ssimMu m y x c ≤ ssimMoment m m y x c := by
  rw [ssimMu, ssimMoment, gaussianWindow_eq_sum_product, gaussianWindow_eq_sum_product]
  have hw : ∀ p ∈ Finset.range 11 ×ˢ Finset.range 11,
      0 ≤ gaussKernel1D 11 (3 / 2) p.1 * gaussKernel1D 11 (3 / 2) p.2 := fun p _ =>
    (mul_pos (gaussKernel1D_pos 11 (3 / 2) (by norm_num) p.1)
      (gaussKernel1D_pos 11 (3 / 2) (by norm_num) p.2)).le
  have hj := sq_weighted_mean_le (Finset.range 11 ×ˢ Finset.range 11)
    (fun p => gaussKernel1D 11 (3 / 2) p.1 * gaussKernel1D 11 (3 / 2) p.2)
    (fun p => fdata m (clampIdx ((y : ℤ) + p.1 - 5) m.rows)
      (clampIdx ((x : ℤ) + p.2 - 5) m.cols) c)
    hw ssim_weight_sum_one
  rw [← pow_two]
  calc (∑ p ∈ Finset.range 11 ×ˢ Finset.range 11,
        gaussKernel1D 11 (3 / 2) p.1 * gaussKernel1D 11 (3 / 2) p.2 *
          fdata m (clampIdx ((y : ℤ) + p.1 - 5) m.rows)
            (clampIdx ((x : ℤ) + p.2 - 5) m.cols) c) ^ 2
      ≤ ∑ p ∈ Finset.range 11 ×ˢ Finset.range 11,
          gaussKernel1D 11 (3 / 2) p.1 * gaussKernel1D 11 (3 / 2) p.2 *
            fdata m (clampIdx ((y : ℤ) + p.1 - 5) m.rows)
              (clampIdx ((x : ℤ) + p.2 - 5) m.cols) c ^ 2 := hj
    _ = ∑ p ∈ Finset.range 11 ×ˢ Finset.range 11,
          gaussKernel1D 11 (3 / 2) p.1 * gaussKernel1D 11 (3 / 2) p.2 *
            (fdata m (clampIdx ((y : ℤ) + p.1 - 5) m.rows)
                (clampIdx ((x : ℤ) + p.2 - 5) m.cols) c *
              fdata m (clampIdx ((y : ℤ) + p.1 - 5) m.rows)
                (clampIdx ((x : ℤ) + p.2 - 5) m.cols) c) :=
      Finset.sum_congr rfl fun p _ => by ring

/-- The per-pixel SSIM map of a buffer against itself is exactly 1:
numerator and denominator coincide and the denominator is positive. -/
lemma ssimMap_self_one (a : Mat) (y x c : ℕ) : ssimMap a a y x c = 1 := by
  rw [ssimMap]
  have hv := ssim_mu_sq_le_moment a y x c
  have hden : 0 < (ssimMu a y x c * ssimMu a y x c + ssimMu a y x c * ssimMu a y x c +
      ssimC1) * ((ssimMoment a a y x c - ssimMu a y x c * ssimMu a y x c) +
        (ssimMoment a a y x c - ssimMu a y x c * ssimMu a y x c) + ssimC2) := by
    apply mul_pos
    · nlinarith [ssimC1_pos, mul_self_nonneg (ssimMu a y x c)]
    · nlinarith [ssimC2_pos]
  rw [show (2 * (ssimMu a y x c * ssimMu a y x c) + ssimC1) *
        (2 * (ssimMoment a a y x c - ssimMu a y x c * ssimMu a y x c) + ssimC2) =
      (ssimMu a y x c * ssimMu a y x c + ssimMu a y x c * ssimMu a y x c + ssimC1) *
        ((ssimMoment a a y x c - ssimMu a y x c * ssimMu a y x c) +
          (ssimMoment a a y x c - ssimMu a y x c * ssimMu a y x c) + ssimC2) from by ring]
  exact div_self hden.ne'

/-- C4: for every non-empty buffer A compared against itself,
`computeSSIM A A = 1`: the per-pixel SSIM map equals 1 at every pixel
(its numerator and denominator coincide), so its mean over channel 0
is exactly 1. -/
theorem ssim_self_one (a : Mat) (hr : 0 < a.rows) (hc : 0 < a.cols) :
    computeSSIM a a = 1 := by
  have hne : ¬a.isEmpty := by
    rw [Mat.isEmpty]
    push_neg
    exact ⟨hr.ne', hc.ne'⟩
  rw [computeSSIM, if_neg (by simp [hne]), if_neg (by simp), if_neg (by simp)]
  rw [Finset.sum_congr rfl fun y _ => Finset.sum_congr rfl fun x _ => ssimMap_self_one a y x 0]
  rw [Finset.sum_const, Finset.sum_const, Finset.card_range, Finset.card_range,
    nsmul_eq_mul, nsmul_eq_mul, mul_one]
  rw [div_eq_one_iff_eq (by positivity)]
  push_cast
  ring

theorem ssim_self_one_witness : computeSSIM mat1 mat1 = 1 :=
  ssim_self_one mat1 (by decide) (by decide)
